import Mathlib

/-!
Verification development for the repository script
.github/scripts/generate_readme.py.

The script is shallowly embedded over lists of characters.  File contents,
paths and rendered markdown are values of type List Char; the filesystem
facts a file contributes (its relative path, its title, the outcome of the
black-box frontmatter parser, its modification time) are collected in the
structure MdFile.  Fallible Python code is modelled with Option.
-/

/-- Python datetime values, compared lexicographically.  The component t
collects hour, minute, second and microsecond into a single residual
ordering component (strftime in this script only ever prints y-mo-d). -/
structure DT where
  y : Nat
  mo : Nat
  d : Nat
  t : Nat
deriving DecidableEq

/-- Strict comparison of datetime values (lexicographic, as in Python). -/
def DT.Lt (a b : DT) : Prop :=
  a.y < b.y ∨ (a.y = b.y ∧ (a.mo < b.mo ∨ (a.mo = b.mo ∧
    (a.d < b.d ∨ (a.d = b.d ∧ a.t < b.t)))))

instance (a b : DT) : Decidable (DT.Lt a b) := by
  unfold DT.Lt; exact inferInstance

/-- A discovered markdown file.  rel is its slash-normalized path relative
to the repository root (os.path.relpath is treated as I/O glue and
precomputed); title is the result of get_title (which reads the file text,
treated as a black box); the fm* fields record the outcomes of the
black-box frontmatter library: whether frontmatter.load succeeds, whether
the metadata has a date key, and the results of
datetime.fromisoformat(str(value)) and
datetime.strptime(str(value), %Y-%m-%d) on that value (none = the call
raises); mtime is the file's modification time. -/
structure MdFile where
  rel : List Char
  title : List Char
  fmLoadOk : Bool
  fmHasDate : Bool
  fmDateISO : Option DT
  fmDateYMD : Option DT
  mtime : DT
deriving DecidableEq

/-- str.lower, on the ASCII range used by this script. -/
def lowerStr (s : List Char) : List Char := s.map Char.toLower

/-- pathlib Path(rel).name: the final path component. -/
def baseName (s : List Char) : List Char := (s.splitOn '/').getLastD s

/-- pathlib Path(name).stem: the final component without its suffix.  The
suffix is nonempty exactly when the last dot sits strictly inside the
name (pathlib: 0 < i < len(name) - 1 for i the index of the last dot). -/
def stem (n : List Char) : List Char :=
  match n.reverse.findIdx? (· = '.') with
  | none => n
  | some j =>
    let i := n.length - 1 - j
    if 0 < i ∧ i < n.length - 1 then n.take i else n

/-- Gregorian leap year, as used by datetime. -/
def isLeap (y : Nat) : Bool := (y % 4 == 0 && y % 100 != 0) || y % 400 == 0

/-- Number of days of month m in year y. -/
def daysInMonth (y m : Nat) : Nat :=
  if m == 2 then (if isLeap y then 29 else 28)
  else if m == 4 || m == 6 || m == 9 || m == 11 then 30
  else 31

/-- Whether datetime(y, m, d) is constructible, i.e. whether
datetime.strptime(s, %Y-%m-%d) succeeds on a well-shaped s.  datetime
years run from MINYEAR = 1 to MAXYEAR = 9999. -/
def validYMD (y m d : Nat) : Bool :=
  1 ≤ y && y ≤ 9999 && 1 ≤ m && m ≤ 12 && 1 ≤ d && d ≤ daysInMonth y m

def digitVal (c : Char) : Nat := c.toNat - '0'.toNat

/-- One attempt of DATE_RE at the start of the text: the pattern
4 digits, '-', 2 digits, '-', 2 digits. -/
def matchDateAt : List Char → Option (Nat × Nat × Nat)
  | a :: b :: c :: d :: e :: f :: g :: h :: i :: j :: _ =>
    if a.isDigit && b.isDigit && c.isDigit && d.isDigit && e == '-' &&
       f.isDigit && g.isDigit && h == '-' && i.isDigit && j.isDigit then
      some (((digitVal a * 10 + digitVal b) * 10 + digitVal c) * 10 + digitVal d,
            digitVal f * 10 + digitVal g,
            digitVal i * 10 + digitVal j)
    else none
  | _ => none

/-- DATE_RE.search: the leftmost match of the date pattern. -/
def dateSearch : List Char → Option (Nat × Nat × Nat)
  | [] => none
  | c :: rest =>
    match matchDateAt (c :: rest) with
    | some r => some r
    | none => dateSearch rest

/-- extract_date_from_filename: search the name for the first match of
DATE_RE; if found, strptime it with %Y-%m-%d, returning None when that
raises.  Later matches are never tried. -/
def extract_date_from_filename (name : List Char) : Option DT :=
  match dateSearch name with
  | none => none
  | some (y, m, d) => if validYMD y m d then some ⟨y, m, d, 0⟩ else none

/-- extract_frontmatter_date: load the frontmatter (any failure gives
None), look for a date key, then try fromisoformat and, if that raises,
strptime %Y-%m-%d. -/
def extract_frontmatter_date (f : MdFile) : Option DT :=
  if f.fmLoadOk then
    if f.fmHasDate then
      match f.fmDateISO with
      | some dt => some dt
      | none => f.fmDateYMD
    else none
  else none

/-- file_mtime: datetime.fromtimestamp(path.stat().st_mtime). -/
def file_mtime (f : MdFile) : DT := f.mtime

/-- path.name of a discovered file; os.path.relpath preserves the final
component, so this is the base name of the relative path. -/
def MdFile.name (f : MdFile) : List Char := baseName f.rel

/-- infer_date: filename date, else frontmatter date, else mtime.
datetime values are always truthy, so the Python truthiness tests on the
intermediate results coincide with the Option matches. -/
def infer_date (f : MdFile) : DT :=
  match extract_date_from_filename f.name with
  | some d => d
  | none =>
    match extract_frontmatter_date f with
    | some d => d
    | none => file_mtime f

/-- str.replace with a single-character needle: each occurrence of the
character is replaced, left to right, and replacements are not rescanned;
for a one-character needle this is exactly a character-wise flat map. -/
def replaceChar (c : Char) (r : List Char) (s : List Char) : List Char :=
  s.flatMap (fun x => if x = c then r else [x])

/-- escape_md_text: text.replace(backslash, double backslash) then
.replace bracket chars with backslash-bracket, in that order. -/
def escape_md_text (text : List Char) : List Char :=
  replaceChar ']' ['\\', ']']
    (replaceChar '[' ['\\', '[']
      (replaceChar '\\' ['\\', '\\'] text))

/-- The characters urllib.parse.quote(s, safe = slash) leaves as-is:
ASCII letters and digits, the always-safe punctuation of quote, and the
slash passed in safe. -/
def isUrlSafe (c : Char) : Bool :=
  c.isAlphanum || c == '_' || c == '.' || c == '-' || c == '~' || c == '/'

/-- UTF-8 bytes of a code point (quote encodes in UTF-8). -/
def utf8Bytes (n : Nat) : List Nat :=
  if n < 0x80 then [n]
  else if n < 0x800 then [0xC0 + n / 64, 0x80 + n % 64]
  else if n < 0x10000 then [0xE0 + n / 4096, 0x80 + n / 64 % 64, 0x80 + n % 64]
  else [0xF0 + n / 262144, 0x80 + n / 4096 % 64, 0x80 + n / 64 % 64, 0x80 + n % 64]

def hexDigit (n : Nat) : Char :=
  if n < 10 then Char.ofNat ('0'.toNat + n) else Char.ofNat ('A'.toNat + n - 10)

/-- Percent-encoding of one character under quote(-, safe = slash):
safe characters stand for themselves, every other character becomes the
uppercase %XX encoding of each of its UTF-8 bytes. -/
def quoteChar (c : Char) : List Char :=
  if isUrlSafe c then [c]
  else (utf8Bytes c.toNat).flatMap (fun b => ['%', hexDigit (b / 16), hexDigit (b % 16)])

/-- url_encode_path: urllib.parse.quote(relpath, safe = slash). -/
def url_encode_path (relpath : List Char) : List Char :=
  relpath.flatMap quoteChar

/-- The --label choices of the argparse surface. -/
inductive LabelMode
  | filename
  | title
  | date_title
  | path
deriving DecidableEq

/-- Decimal digits of n, left-padded with zeros to width w (strftime
zero-pads %Y to 4 and %m, %d to 2). -/
def padNum (w n : Nat) : List Char :=
  let s := Nat.toDigits 10 n
  List.replicate (w - s.length) '0' ++ s

/-- date.strftime(%Y-%m-%d). -/
def fmtDate (dt : DT) : List Char :=
  padNum 4 dt.y ++ ['-'] ++ padNum 2 dt.mo ++ ['-'] ++ padNum 2 dt.d

/-- One element of the items list of build_list: the tuple
(date, title, rel, f). -/
structure NoteItem where
  date : DT
  title : List Char
  rel : List Char
  file : MdFile
deriving DecidableEq

/-- The link text chosen by label_mode (the else branch of the source
repeats the title; argparse makes it unreachable). -/
def labelText (mode : LabelMode) (date_str : List Char) (it : NoteItem) : List Char :=
  match mode with
  | .filename => stem (baseName it.rel)
  | .title => it.title
  | .date_title => if date_str = [] then it.title else date_str ++ " — ".data ++ it.title
  | .path => it.rel

/-- One rendered line: dash, escaped label in brackets, encoded link in
parentheses. -/
def renderItem (mode : LabelMode) (it : NoteItem) : List Char :=
  "- [".data ++ escape_md_text (labelText mode (fmtDate it.date) it)
    ++ "](".data ++ url_encode_path it.rel ++ ")".data

/-- The filtering loop of build_list: skip a file whose base name equals
dest_name case-insensitively or whose relative path starts with
.github/, skip a relative path already seen, and otherwise record
(infer_date f, title, rel, f), marking rel as seen. -/
def build_items : List MdFile → List Char → List (List Char) → List NoteItem
  | [], _, _ => []
  | f :: fs, dest_name, seen =>
    if lowerStr (baseName f.rel) == lowerStr dest_name || ".github/".data.isPrefixOf f.rel then
      build_items fs dest_name seen
    else if f.rel ∈ seen then
      build_items fs dest_name seen
    else
      ⟨infer_date f, f.title, f.rel, f⟩ :: build_items fs dest_name (f.rel :: seen)

/-- Stable insertion into a descending list: x moves past exactly the
elements with strictly larger date, so equal dates keep their original
relative order. -/
def insertByDate (x : NoteItem) : List NoteItem → List NoteItem
  | [] => [x]
  | y :: ys => if DT.Lt x.date y.date then y :: insertByDate x ys else x :: y :: ys

/-- items.sort(key = date, reverse = True): the stable descending sort by
inferred date.  A stable descending sort is unique, so stable insertion
sort is an exact model of Python list.sort with reverse = True. -/
def sortByDateDesc : List NoteItem → List NoteItem
  | [] => []
  | x :: xs => insertByDate x (sortByDateDesc xs)

/-- The Python slice l[:c] for an int c: a nonnegative c keeps the first
c elements; a negative c drops the last -c elements. -/
def pySlice (c : Int) (l : List α) : List α :=
  if 0 ≤ c then l.take c.toNat else l.take (l.length - (-c).toNat)

/-- build_list: filter and deduplicate the candidates, sort by inferred
date descending, truncate with items[:count], render each survivor and
join the lines with newlines. -/
def build_list (files : List MdFile) (count : Int) (dest_name : List Char)
    (label_mode : LabelMode) : List Char :=
  List.intercalate ['\n']
    ((pySlice count (sortByDateDesc (build_items files dest_name []))).map
      (renderItem label_mode))

/-- The start sentinel of the replaced region. -/
def startMarker : List Char := "<!-- DAILY_NOTES:START -->".data

/-- The end sentinel of the replaced region. -/
def endMarker : List Char := "<!-- DAILY_NOTES:END -->".data

/-- A single newline. -/
def nl : List Char := ['\n']

/-- Leftmost occurrence of m in s: some (p, r) when s = p ++ m ++ r and
no occurrence of m starts earlier. -/
def splitFirst (m : List Char) : List Char → Option (List Char × List Char)
  | [] => if m.isPrefixOf [] then some ([], []) else none
  | c :: rest =>
    if m.isPrefixOf (c :: rest) then some ([], (c :: rest).drop m.length)
    else (splitFirst m rest).map (fun pr => (c :: pr.1, pr.2))

/-- Whether the regex re.escape(s) .*? re.escape(e) (with DOTALL) matches
the text: the leftmost occurrence of s must be followed by an occurrence
of e.  If the first occurrence of s has no e after it, no later one does
either, so this is exactly pattern.search. -/
def hasMatch (s e text : List Char) : Bool :=
  match splitFirst s text with
  | none => false
  | some (_, rest) => (splitFirst e rest).isSome

/-- Fuelled worker for re.sub with the marker pattern: repeatedly find
the leftmost span from an s-occurrence to the next e-occurrence, splice
in repl, and continue after the span without rescanning it. -/
def subAllF (s e repl : List Char) : Nat → List Char → List Char
  | 0, text => text
  | fuel + 1, text =>
    match splitFirst s text with
    | none => text
    | some (pre, rest) =>
      match splitFirst e rest with
      | none => text
      | some (_, rest2) => pre ++ repl ++ subAllF s e repl fuel rest2

/-- pattern.sub(repl, text) for the marker pattern: every non-overlapping
leftmost-shortest span is replaced.  Each replaced span consumes at least
one character when s is nonempty, so length text + 1 fuel suffices. -/
def subAll (s e repl text : List Char) : List Char :=
  subAllF s e repl (text.length + 1) text

/-- What backslash-c contributes in a re.sub replacement template when c
is one of the standard single-character escapes. -/
def templSimple (c : Char) : Option Char :=
  if c = 'n' then some '\n'
  else if c = 't' then some '\t'
  else if c = 'r' then some '\x0d'
  else if c = 'a' then some '\x07'
  else if c = 'b' then some '\x08'
  else if c = 'f' then some '\x0c'
  else if c = 'v' then some '\x0b'
  else none

/-- Python re.sub replacement-template processing: a double backslash
collapses to one, the standard letter escapes become control characters,
a backslash before any other non-alphanumeric character is kept as-is,
a trailing backslash or a backslash before another ASCII letter raises
re.error.  Group references (backslash-digit, backslash-g) are modelled
as errors: the marker pattern has no groups and the script's rendered
bodies never contain such sequences, so no theorem below depends on that
corner. -/
def processTemplate : List Char → Option (List Char)
  | [] => some []
  | c :: rest =>
    if c = '\\' then
      match rest with
      | [] => none
      | c2 :: rest2 =>
        if c2 = '\\' then (processTemplate rest2).map (fun t => '\\' :: t)
        else
          match templSimple c2 with
          | some ch => (processTemplate rest2).map (fun t => ch :: t)
          | none =>
            if c2.isDigit || c2 = 'g' then none
            else if c2.isAlpha then none
            else (processTemplate rest2).map (fun t => '\\' :: c2 :: t)
    else (processTemplate rest).map (fun t => c :: t)

/-- replace_section of the script, over a destination-file state: none
means the file does not exist.  The result is none when re.sub raises on
the replacement template, and otherwise some (state after the call,
returned changed flag); the state is the file content that is on disk
afterwards (the write is skipped exactly when the new content equals the
old).  Creating a missing file and appending the marker block use the raw
replacement string; only pattern.sub processes it as a template. -/
def replace_section (st : Option (List Char)) (new_md : List Char) :
    Option (Option (List Char) × Bool) :=
  match st with
  | none => some (some (startMarker ++ nl ++ new_md ++ nl ++ endMarker ++ nl), true)
  | some content =>
    let replacement := startMarker ++ nl ++ new_md ++ nl ++ endMarker
    if hasMatch startMarker endMarker content then
      match processTemplate replacement with
      | none => none
      | some processed =>
        let new_content := subAll startMarker endMarker processed content
        if new_content = content then some (some content, false)
        else some (some new_content, true)
    else
      let new_content := content ++ nl ++ nl ++ replacement
      if new_content = content then some (some content, false)
      else some (some new_content, true)

/-- The one-line status printed by main. -/
inductive ExitMsg
  | noFiles
  | updated
  | noChange
deriving DecidableEq

/-- main, over the discovered file list and the destination state: with
no files it prints the no-files message and exits 0 without touching the
destination; otherwise it builds the list and calls replace_section,
reporting updated or no-change from the returned flag.  none propagates
an exception from replace_section. -/
def main_run (files : List MdFile) (dest_state : Option (List Char)) (count : Int)
    (dest_name : List Char) (mode : LabelMode) :
    Option (Option (List Char) × ExitMsg) :=
  if files = [] then some (dest_state, ExitMsg.noFiles)
  else
    match replace_section dest_state (build_list files count dest_name mode) with
    | none => none
    | some (st, changed) => some (st, if changed then ExitMsg.updated else ExitMsg.noChange)

/-- Deduplication by relative path, first occurrence wins.  Used only to
express the record count that claim C10 describes. -/
def dedupByRel : List MdFile → List (List Char) → List MdFile
  | [], _ => []
  | f :: fs, seen =>
    if f.rel ∈ seen then dedupByRel fs seen
    else f :: dedupByRel fs (f.rel :: seen)

/-- Modelled from the spec wording of claim C10: the candidates remaining
after exclusion of the destination file and deduplication by relative
path.  This is deliberately the claim's description, not the code's
filter (the code additionally drops paths under .github/); the two are
compared in the C10 theorems. -/
def claimRemaining (files : List MdFile) (dn : List Char) : List MdFile :=
  dedupByRel (files.filter (fun f => !(lowerStr (baseName f.rel) == lowerStr dn))) []

/-- Destination content with a single marker pair, used as a witness
input. -/
def c1wit_content : List Char :=
  "A\n".data ++ startMarker ++ "\nold\n".data ++ endMarker ++ "\nZ".data

/-- Destination content holding two marker pairs. -/
def c1cex_content : List Char :=
  startMarker ++ "\na\n".data ++ endMarker ++ nl ++ startMarker ++ "\nb\n".data ++ endMarker

/-- What replace_section actually produces on c1cex_content with body x:
both spans are rewritten. -/
def c1cex_actual : List Char :=
  startMarker ++ "\nx\n".data ++ endMarker ++ nl ++ startMarker ++ "\nx\n".data ++ endMarker

/-- What claim C1 mandates on c1cex_content with body x: only the first
span rewritten, everything after its end marker byte-identical. -/
def c1cex_claimres : List Char :=
  startMarker ++ "\nx\n".data ++ endMarker ++ nl ++ startMarker ++ "\nb\n".data ++ endMarker

/-- State after running replace_section with body x on a destination that
holds a dangling start marker: the marker block is appended. -/
def c2cex_mid : List Char :=
  startMarker ++ nl ++ nl ++ (startMarker ++ nl ++ ['x'] ++ nl ++ endMarker)

/-- State after the second run on c2cex_mid: the span from the dangling
start marker to the appended end marker collapses, so the second run
writes again. -/
def c2cex_after : List Char :=
  startMarker ++ nl ++ ['x'] ++ nl ++ endMarker

/-- File whose base name holds an early non-parsing DATE_RE match
(month 99 never parses; year 0000 is below MINYEAR) before a perfectly
valid date. -/
def c3cex_file : MdFile :=
  ⟨"0000-12-31 2024-03-01.md".data, "T".data, false, false, none, none, ⟨2030, 1, 1, 5⟩⟩

/-- File whose name carries a date and whose frontmatter carries an older
one. -/
def c3wit_fileA : MdFile :=
  ⟨"2024-03-01-notes.md".data, "T".data, true, true, some ⟨2020, 1, 1, 0⟩, none, ⟨2001, 1, 1, 0⟩⟩

/-- File with no filename date and a frontmatter date. -/
def c3wit_fileB : MdFile :=
  ⟨"notes.md".data, "T".data, true, true, some ⟨2021, 6, 15, 0⟩, none, ⟨2001, 1, 1, 0⟩⟩

/-- File with neither a filename date nor a frontmatter date. -/
def c3wit_fileC : MdFile :=
  ⟨"plain.md".data, "T".data, true, false, none, none, ⟨2022, 2, 2, 2⟩⟩

/-- Witness candidates: w4 is newest, w1 and w2 tie on 2024-05-05 (w1 by
filename, w2 by frontmatter), w3 is oldest by mtime. -/
def c5wit_w1 : MdFile :=
  ⟨"a/2024-05-05-x.md".data, "W1".data, true, false, none, none, ⟨2001, 1, 1, 0⟩⟩

def c5wit_w2 : MdFile :=
  ⟨"b.md".data, "W2".data, true, true, some ⟨2024, 5, 5, 0⟩, none, ⟨2001, 1, 1, 0⟩⟩

def c5wit_w3 : MdFile :=
  ⟨"c.md".data, "W3".data, true, false, none, none, ⟨2020, 1, 1, 0⟩⟩

def c5wit_w4 : MdFile :=
  ⟨"d.md".data, "W4".data, true, false, none, none, ⟨2025, 1, 1, 0⟩⟩

def c5wit_files : List MdFile := [c5wit_w1, c5wit_w2, c5wit_w3, c5wit_w4]

/-- An ordinary note next to a deeply nested README.md. -/
def c6wit_note : MdFile :=
  ⟨"notes/a.md".data, "N".data, true, false, none, none, ⟨2020, 1, 1, 0⟩⟩

def c6wit_readme : MdFile :=
  ⟨"docs/README.md".data, "R".data, true, false, none, none, ⟨2030, 1, 1, 0⟩⟩

/-- The record build_items keeps for c6wit_note. -/
def c6wit_item : NoteItem :=
  ⟨infer_date c6wit_note, c6wit_note.title, c6wit_note.rel, c6wit_note⟩

/-- File whose frontmatter loading fails and whose name has no date. -/
def c7wit_file : MdFile :=
  ⟨"x--x.md".data, "T".data, false, true, none, none, ⟨2020, 1, 1, 1⟩⟩

/-- A candidate living under .github/: counted by the claim's description
of n for C10, but dropped by build_list. -/
def c10cex_file : MdFile :=
  ⟨".github/a.md".data, "T".data, true, false, none, none, ⟨2020, 1, 1, 0⟩⟩

/-! ### Facts about splitFirst and subAll -/

theorem splitFirst_sound {m s p r : List Char}
    (h : splitFirst m s = some (p, r)) : s = p ++ m ++ r := by
  induction s generalizing p r with
  | nil =>
    unfold splitFirst at h
    split at h
    · rename_i hp
      have hm : m = [] := List.prefix_nil.mp (List.isPrefixOf_iff_prefix.mp hp)
      simp only [Option.some.injEq, Prod.mk.injEq] at h
      simp [hm, ← h.1, ← h.2]
    · exact absurd h (by simp)
  | cons c rest ih =>
    unfold splitFirst at h
    split at h
    · rename_i hp
      obtain ⟨t, ht⟩ := List.isPrefixOf_iff_prefix.mp hp
      simp only [Option.some.injEq, Prod.mk.injEq] at h
      have hdrop : (c :: rest).drop m.length = t := by
        rw [← ht, List.drop_left]
      rw [← h.1, ← h.2, hdrop, ← ht]
      simp
    · rcases hrec : splitFirst m rest with _ | ⟨p', r'⟩
      · rw [hrec] at h; exact absurd h (by simp)
      · rw [hrec] at h
        simp only [Option.map_some', Option.some.injEq, Prod.mk.injEq] at h
        rw [← h.1, ← h.2]
        simpa using ih hrec

theorem splitFirst_cons_eq (m : List Char) (c : Char) (rest : List Char) :
    splitFirst m (c :: rest) =
      if m.isPrefixOf (c :: rest) then some ([], (c :: rest).drop m.length)
      else (splitFirst m rest).map (fun pr => (c :: pr.1, pr.2)) := rfl

theorem splitFirst_self_append {m : List Char} (hm : m ≠ []) (u : List Char) :
    splitFirst m (m ++ u) = some ([], u) := by
  cases m with
  | nil => exact absurd rfl hm
  | cons a m' =>
    have hp : (a :: m').isPrefixOf ((a :: m') ++ u) = true :=
      List.isPrefixOf_iff_prefix.mpr (List.prefix_append _ u)
    have hd : ((a :: m') ++ u).drop (a :: m').length = u := List.drop_left _ _
    rw [List.cons_append] at hp hd ⊢
    rw [splitFirst_cons_eq, if_pos hp, hd]

theorem splitFirst_none_iff {m s : List Char} :
    splitFirst m s = none ↔ ¬ m <:+: s := by
  induction s with
  | nil =>
    unfold splitFirst
    split
    · rename_i hp
      have hm : m = [] := List.prefix_nil.mp (List.isPrefixOf_iff_prefix.mp hp)
      simp [hm]
    · rename_i hp
      have hm : m ≠ [] := by
        intro hm
        exact hp (by simp [hm, List.isPrefixOf_iff_prefix])
      simp [List.infix_nil, hm]
  | cons c rest ih =>
    unfold splitFirst
    split
    · rename_i hp
      have : m <:+: c :: rest := (List.isPrefixOf_iff_prefix.mp hp).isInfix
      simp [this]
    · rename_i hp
      have hnp : ¬ m <+: c :: rest := fun hc => hp (List.isPrefixOf_iff_prefix.mpr hc)
      rcases hrec : splitFirst m rest with _ | pr
      · simp only [Option.map_none', true_iff]
        intro hinf
        rcases List.infix_cons_iff.mp hinf with h1 | h2
        · exact hnp h1
        · exact ih.mp hrec h2
      · simp only [Option.map_some']
        have hmem : m <:+: rest := by
          by_contra hno
          rw [← ih] at hno
          rw [hno] at hrec
          cases hrec
        constructor
        · intro h; exact absurd h (by simp)
        · intro hno; exact absurd (List.infix_cons hmem) hno

theorem not_infix_of_length_lt {m s : List Char} (h : s.length < m.length) :
    ¬ m <:+: s := fun hinf => absurd hinf.length_le (by omega)

theorem splitFirst_nil {m : List Char} (hm : m ≠ []) : splitFirst m [] = none :=
  splitFirst_none_iff.mpr (by simp [List.infix_nil, hm])

theorem prefix_infix_dropLast {m t u : List Char}
    (ht : t ≠ []) (h : m <+: t ++ m ++ u) : m <:+: (t ++ m).dropLast := by
  have htlen : 1 ≤ t.length := List.length_pos.mpr ht
  have hlen : m.length ≤ (t ++ m).length - 1 := by
    simp only [List.length_append]; omega
  have htake : (t ++ m ++ u).take m.length = m := by
    obtain ⟨w, hw⟩ := h
    rw [← hw, List.take_append_of_le_length (by simp), List.take_length]
  have h2 : (t ++ m).take m.length = m := by
    have hx : (t ++ m ++ u).take m.length = (t ++ m).take m.length :=
      List.take_append_of_le_length (by simp only [List.length_append]; omega)
    rw [← hx]
    exact htake
  have h3 : (t ++ m).dropLast.take m.length = m := by
    rw [List.dropLast_eq_take, List.take_take, min_eq_left hlen, h2]
  exact (List.prefix_iff_eq_take.mpr h3.symm).isInfix

theorem splitFirst_append {m t u : List Char} (hm : m ≠ [])
    (hinf : ¬ m <:+: (t ++ m).dropLast) :
    splitFirst m (t ++ m ++ u) = some (t, u) := by
  induction t with
  | nil =>
    simpa using splitFirst_self_append hm u
  | cons c t' ih =>
    have hstep : splitFirst m (t' ++ m ++ u) = some (t', u) := by
      refine ih ?_
      intro hbad
      refine hinf ?_
      have hne : t' ++ m ≠ [] := by simp [hm]
      have : ((c :: t') ++ m).dropLast = c :: (t' ++ m).dropLast := by
        simp only [List.cons_append]
        exact List.dropLast_cons_of_ne_nil hne
      rw [this]
      exact List.infix_cons hbad
    have hnp : ¬ (m.isPrefixOf (c :: (t' ++ m ++ u)) = true) := by
      intro hp
      have hpre : m <+: (c :: t') ++ m ++ u := by
        simpa using List.isPrefixOf_iff_prefix.mp hp
      exact hinf (prefix_infix_dropLast (by simp) hpre)
    have hshape : (c :: t') ++ m ++ u = c :: (t' ++ m ++ u) := by simp
    rw [hshape, splitFirst_cons_eq, if_neg hnp, hstep]
    rfl

theorem splitFirst_minimal {m s p r : List Char} (hm : m ≠ [])
    (h : splitFirst m s = some (p, r)) : ¬ m <:+: (p ++ m).dropLast := by
  induction s generalizing p r with
  | nil =>
    rw [splitFirst_nil hm] at h
    cases h
  | cons c rest ih =>
    unfold splitFirst at h
    split at h
    · simp only [Option.some.injEq, Prod.mk.injEq] at h
      rw [← h.1]
      simp only [List.nil_append]
      exact not_infix_of_length_lt (by
        rw [List.length_dropLast]
        have : 1 ≤ m.length := List.length_pos.mpr hm
        omega)
    · rename_i hp
      rcases hrec : splitFirst m rest with _ | ⟨p', r'⟩
      · rw [hrec] at h; cases h
      · rw [hrec] at h
        simp only [Option.map_some', Option.some.injEq, Prod.mk.injEq] at h
        rw [← h.1]
        intro hbad
        have hne : p' ++ m ≠ [] := by simp [hm]
        rw [List.cons_append, List.dropLast_cons_of_ne_nil hne] at hbad
        rcases List.infix_cons_iff.mp hbad with h1 | h2
        · refine hp (List.isPrefixOf_iff_prefix.mpr ?_)
          have h3 : c :: (p' ++ m).dropLast <+: c :: (p' ++ m) :=
            List.cons_prefix_cons.mpr ⟨rfl, List.dropLast_prefix _⟩
          have h4 : c :: (p' ++ m) <+: c :: rest := by
            have := splitFirst_sound hrec
            exact List.cons_prefix_cons.mpr ⟨rfl, by rw [this]; exact List.prefix_append _ _⟩
          exact h1.trans (h3.trans h4)
        · exact ih hrec h2

theorem subAllF_fuel_eq {s e repl : List Char} (hs : s ≠ []) :
    ∀ f1 f2 text, text.length < f1 → text.length < f2 →
      subAllF s e repl f1 text = subAllF s e repl f2 text := by
  intro f1
  induction f1 with
  | zero => intro f2 text h1 h2; omega
  | succ f1' ih =>
    intro f2 text h1 h2
    cases f2 with
    | zero => omega
    | succ f2' =>
      cases hsp : splitFirst s text with
      | none => simp only [subAllF, hsp]
      | some pr =>
        obtain ⟨pre, rest⟩ := pr
        cases hse : splitFirst e rest with
        | none => simp only [subAllF, hsp, hse]
        | some pr2 =>
          obtain ⟨mid, rest2⟩ := pr2
          simp only [subAllF, hsp, hse]
          have htext := splitFirst_sound hsp
          have hrest := splitFirst_sound hse
          have hslen : 1 ≤ s.length := List.length_pos.mpr hs
          have hlen : rest2.length + 1 ≤ text.length := by
            rw [htext, hrest]
            simp only [List.length_append]
            omega
          rw [ih f2' rest2 (by omega) (by omega)]

theorem subAll_of_none {s e repl text : List Char}
    (hsp : splitFirst s text = none) : subAll s e repl text = text := by
  unfold subAll
  simp only [subAllF, hsp]

theorem subAll_of_noEnd {s e repl text pre rest : List Char}
    (hsp : splitFirst s text = some (pre, rest))
    (hse : splitFirst e rest = none) : subAll s e repl text = text := by
  unfold subAll
  simp only [subAllF, hsp, hse]

theorem subAll_of_noMatch {s e repl text : List Char}
    (h : hasMatch s e text = false) : subAll s e repl text = text := by
  unfold hasMatch at h
  cases hsp : splitFirst s text with
  | none => exact subAll_of_none hsp
  | some pr =>
    obtain ⟨pre, rest⟩ := pr
    rw [hsp] at h
    change (splitFirst e rest).isSome = false at h
    cases hse : splitFirst e rest with
    | none => exact subAll_of_noEnd hsp hse
    | some pr2 => rw [hse] at h; simp at h

theorem subAll_step {s e repl text pre rest mid rest2 : List Char} (hs : s ≠ [])
    (hsp : splitFirst s text = some (pre, rest))
    (hse : splitFirst e rest = some (mid, rest2)) :
    subAll s e repl text = pre ++ repl ++ subAll s e repl rest2 := by
  have htext := splitFirst_sound hsp
  have hrest := splitFirst_sound hse
  have hslen : 1 ≤ s.length := List.length_pos.mpr hs
  have hlen : rest2.length + 1 ≤ text.length := by
    rw [htext, hrest]
    simp only [List.length_append]
    omega
  have h1 : subAll s e repl text = pre ++ repl ++ subAllF s e repl text.length rest2 := by
    unfold subAll
    simp only [subAllF, hsp, hse]
  rw [h1]
  unfold subAll
  congr 1
  exact subAllF_fuel_eq hs text.length (rest2.length + 1) rest2 (by omega) (by omega)

theorem subAll_idem {s e body : List Char} (hs : s ≠ []) (he : e ≠ [])
    (hb : ¬ e <:+: (body ++ e).dropLast) :
    ∀ n text, text.length ≤ n →
      subAll s e (s ++ body ++ e) (subAll s e (s ++ body ++ e) text)
        = subAll s e (s ++ body ++ e) text := by
  intro n
  induction n with
  | zero =>
    intro text hlen
    have htext : text = [] := List.eq_nil_of_length_eq_zero (by omega)
    subst htext
    simp only [subAll_of_none (splitFirst_nil hs)]
  | succ n ih =>
    intro text hlen
    cases hsp : splitFirst s text with
    | none => simp only [subAll_of_none hsp]
    | some pr =>
      obtain ⟨pre, rest⟩ := pr
      cases hse : splitFirst e rest with
      | none => simp only [subAll_of_noEnd hsp hse]
      | some pr2 =>
        obtain ⟨mid, rest2⟩ := pr2
        rw [subAll_step hs hsp hse]
        have hpre := splitFirst_minimal hs hsp
        have h1 : splitFirst s
            (pre ++ (s ++ body ++ e) ++ subAll s e (s ++ body ++ e) rest2)
            = some (pre, body ++ e ++ subAll s e (s ++ body ++ e) rest2) := by
          have hshape : pre ++ (s ++ body ++ e) ++ subAll s e (s ++ body ++ e) rest2
              = pre ++ s ++ (body ++ e ++ subAll s e (s ++ body ++ e) rest2) := by
            simp [List.append_assoc]
          rw [hshape]
          exact splitFirst_append hs hpre
        have h2 : splitFirst e (body ++ e ++ subAll s e (s ++ body ++ e) rest2)
            = some (body, subAll s e (s ++ body ++ e) rest2) :=
          splitFirst_append he hb
        rw [subAll_step hs h1 h2]
        have htext := splitFirst_sound hsp
        have hrest := splitFirst_sound hse
        have hslen : 1 ≤ s.length := List.length_pos.mpr hs
        have hlen2 : rest2.length ≤ n := by
          rw [htext, hrest] at hlen
          simp only [List.length_append] at hlen
          omega
        rw [ih rest2 hlen2]

theorem hasMatch_subAll {s e body text : List Char} (hs : s ≠ []) (he : e ≠ [])
    (hb : ¬ e <:+: (body ++ e).dropLast)
    (h : hasMatch s e text = true) :
    hasMatch s e (subAll s e (s ++ body ++ e) text) = true := by
  unfold hasMatch at h ⊢
  cases hsp : splitFirst s text with
  | none => rw [hsp] at h; exact absurd h (by simp)
  | some pr =>
    obtain ⟨pre, rest⟩ := pr
    rw [hsp] at h
    change (splitFirst e rest).isSome = true at h
    cases hse : splitFirst e rest with
    | none => rw [hse] at h; exact absurd h (by simp)
    | some pr2 =>
      obtain ⟨mid, rest2⟩ := pr2
      rw [subAll_step hs hsp hse]
      have hpre := splitFirst_minimal hs hsp
      have h1 : splitFirst s
          (pre ++ (s ++ body ++ e) ++ subAll s e (s ++ body ++ e) rest2)
          = some (pre, body ++ e ++ subAll s e (s ++ body ++ e) rest2) := by
        have hshape : pre ++ (s ++ body ++ e) ++ subAll s e (s ++ body ++ e) rest2
            = pre ++ s ++ (body ++ e ++ subAll s e (s ++ body ++ e) rest2) := by
          simp [List.append_assoc]
        rw [hshape]
        exact splitFirst_append hs hpre
      rw [h1]
      change (splitFirst e (body ++ e ++ subAll s e (s ++ body ++ e) rest2)).isSome = true
      rw [splitFirst_append he hb]
      rfl

theorem startMarker_ne_nil : startMarker ≠ [] := by decide

theorem endMarker_ne_nil : endMarker ≠ [] := by decide

theorem replace_section_some (content md : List Char) :
    replace_section (some content) md =
      if hasMatch startMarker endMarker content then
        match processTemplate (startMarker ++ nl ++ md ++ nl ++ endMarker) with
        | none => none
        | some processed =>
          if subAll startMarker endMarker processed content = content
          then some (some content, false)
          else some (some (subAll startMarker endMarker processed content), true)
      else
        if content ++ nl ++ nl ++ (startMarker ++ nl ++ md ++ nl ++ endMarker) = content
        then some (some content, false)
        else some (some (content ++ nl ++ nl ++ (startMarker ++ nl ++ md ++ nl ++ endMarker)), true) :=
  rfl

/-- Claim C1 (amended): when the marker pattern matches exactly once in
the existing destination content — the leftmost start marker, the next
end marker after it, and no further marker pair in the remainder — and
the replacement template is inert under re.sub template processing, then
replace_section rewrites exactly the span between the two markers: the
prefix before the start marker, both markers, and the suffix after the
end marker are byte-identical before and after, and only the text
strictly between the markers is replaced by the new body. -/
theorem c1_frame_thm (content md pre rest mid suf : List Char)
    (h1 : splitFirst startMarker content = some (pre, rest))
    (h2 : splitFirst endMarker rest = some (mid, suf))
    (h3 : hasMatch startMarker endMarker suf = false)
    (hT : processTemplate (startMarker ++ nl ++ md ++ nl ++ endMarker)
        = some (startMarker ++ nl ++ md ++ nl ++ endMarker)) :
    content = pre ++ startMarker ++ mid ++ endMarker ++ suf ∧
    ∃ changed, replace_section (some content) md
      = some (some (pre ++ startMarker ++ nl ++ md ++ nl ++ endMarker ++ suf), changed) := by
  have hS : startMarker ≠ [] := startMarker_ne_nil
  have hdec : content = pre ++ startMarker ++ mid ++ endMarker ++ suf := by
    have h1' := splitFirst_sound h1
    have h2' := splitFirst_sound h2
    rw [h1', h2']
    simp [List.append_assoc]
  have hmatch : hasMatch startMarker endMarker content = true := by
    unfold hasMatch
    rw [h1]
    change (splitFirst endMarker rest).isSome = true
    rw [h2]
    rfl
  have hsub : subAll startMarker endMarker (startMarker ++ nl ++ md ++ nl ++ endMarker) content
      = pre ++ (startMarker ++ nl ++ md ++ nl ++ endMarker) ++ suf := by
    rw [subAll_step hS h1 h2, subAll_of_noMatch h3]
  have htarget : pre ++ (startMarker ++ nl ++ md ++ nl ++ endMarker) ++ suf
      = pre ++ startMarker ++ nl ++ md ++ nl ++ endMarker ++ suf := by
    simp [List.append_assoc]
  refine ⟨hdec, ?_⟩
  rw [replace_section_some, if_pos hmatch, hT]
  by_cases heq : subAll startMarker endMarker (startMarker ++ nl ++ md ++ nl ++ endMarker) content = content
  · refine ⟨false, ?_⟩
    show (if subAll startMarker endMarker (startMarker ++ nl ++ md ++ nl ++ endMarker) content = content
        then some (some content, false)
        else some (some (subAll startMarker endMarker (startMarker ++ nl ++ md ++ nl ++ endMarker) content), true))
      = some (some (pre ++ startMarker ++ nl ++ md ++ nl ++ endMarker ++ suf), false)
    rw [if_pos heq, ← heq, hsub, htarget]
  · refine ⟨true, ?_⟩
    show (if subAll startMarker endMarker (startMarker ++ nl ++ md ++ nl ++ endMarker) content = content
        then some (some content, false)
        else some (some (subAll startMarker endMarker (startMarker ++ nl ++ md ++ nl ++ endMarker) content), true))
      = some (some (pre ++ startMarker ++ nl ++ md ++ nl ++ endMarker ++ suf), true)
    rw [if_neg heq, hsub, htarget]

/-- Concrete run showing claim C1 false as frozen: on a destination
holding two marker pairs, replace_section rewrites both spans, so the
text after the first pair is not byte-identical to what it was. -/
theorem c1_counterexample :
    replace_section (some c1cex_content) ['x'] = some (some c1cex_actual, true) ∧
    c1cex_actual ≠ c1cex_claimres := by
  constructor
  · decide
  · decide

theorem replace_section_fixed {content md : List Char}
    (hmatch : hasMatch startMarker endMarker content = true)
    (hT : processTemplate (startMarker ++ nl ++ md ++ nl ++ endMarker)
        = some (startMarker ++ nl ++ md ++ nl ++ endMarker))
    (hfix : subAll startMarker endMarker (startMarker ++ nl ++ md ++ nl ++ endMarker) content
        = content) :
    replace_section (some content) md = some (some content, false) := by
  rw [replace_section_some, if_pos hmatch, hT]
  show (if subAll startMarker endMarker (startMarker ++ nl ++ md ++ nl ++ endMarker) content = content
      then some (some content, false)
      else some (some (subAll startMarker endMarker (startMarker ++ nl ++ md ++ nl ++ endMarker) content), true))
    = some (some content, false)
  rw [if_pos hfix]

theorem template_shape (md : List Char) :
    startMarker ++ nl ++ md ++ nl ++ endMarker
      = startMarker ++ (nl ++ md ++ nl) ++ endMarker := by
  simp [List.append_assoc]

theorem replace_section_some_match {content md processed : List Char}
    (hm : hasMatch startMarker endMarker content = true)
    (hp : processTemplate (startMarker ++ nl ++ md ++ nl ++ endMarker) = some processed) :
    replace_section (some content) md =
      if subAll startMarker endMarker processed content = content
      then some (some content, false)
      else some (some (subAll startMarker endMarker processed content), true) := by
  rw [replace_section_some, if_pos hm, hp]

theorem append_block_ne (content md : List Char) :
    content ++ nl ++ nl ++ (startMarker ++ nl ++ md ++ nl ++ endMarker) ≠ content := by
  intro h
  have hlen := congrArg List.length h
  have h1 : nl.length = 1 := rfl
  have h2 : startMarker.length = 26 := rfl
  have h3 : endMarker.length = 24 := rfl
  simp only [List.length_append, h1, h2, h3] at hlen
  omega

theorem replace_section_some_nomatch {content md : List Char}
    (hm : hasMatch startMarker endMarker content = false) :
    replace_section (some content) md =
      some (some (content ++ nl ++ nl ++ (startMarker ++ nl ++ md ++ nl ++ endMarker)), true) := by
  rw [replace_section_some, if_neg (by simp [hm]), if_neg (append_block_ne content md)]

/-- Claim C2 (amended): running replace_section twice with the same body
performs no write on the second run — the second run returns false and
leaves the on-disk state untouched — provided the rendered body is inert
under re.sub template processing, the end marker occurs in the block
newline-body-newline-endMarker only at its end, and, when the existing
content has no marker match, the start marker occurs in
content-newline-newline-startMarker only at its end (in particular the
content has no dangling start marker).  Independently of those
hypotheses, any run on an existing file writes exactly when the resulting
content differs byte-wise from the original. -/
theorem c2_idempotence_thm (st : Option (List Char)) (md : List Char)
    (hT : processTemplate (startMarker ++ nl ++ md ++ nl ++ endMarker)
        = some (startMarker ++ nl ++ md ++ nl ++ endMarker))
    (hb : ¬ endMarker <:+: (nl ++ md ++ nl ++ endMarker).dropLast)
    (hc : ∀ content, st = some content →
        hasMatch startMarker endMarker content = false →
        ¬ startMarker <:+: (content ++ nl ++ nl ++ startMarker).dropLast) :
    (∃ c1 b1, replace_section st md = some (some c1, b1) ∧
        replace_section (some c1) md = some (some c1, false)) ∧
    (∀ content st2 ch, replace_section (some content) md = some (st2, ch) →
        (ch = false ↔ st2 = some content)) := by
  have hS : startMarker ≠ [] := startMarker_ne_nil
  have hE : endMarker ≠ [] := endMarker_ne_nil
  constructor
  · -- idempotence
    cases st with
    | none =>
      refine ⟨startMarker ++ nl ++ md ++ nl ++ endMarker ++ nl, true, rfl, ?_⟩
      have h1 : splitFirst startMarker (startMarker ++ nl ++ md ++ nl ++ endMarker ++ nl)
          = some ([], nl ++ md ++ nl ++ endMarker ++ nl) := by
        have hshape : startMarker ++ nl ++ md ++ nl ++ endMarker ++ nl
            = startMarker ++ (nl ++ md ++ nl ++ endMarker ++ nl) := by
          simp [List.append_assoc]
        rw [hshape]
        exact splitFirst_self_append hS _
      have h2 : splitFirst endMarker (nl ++ md ++ nl ++ endMarker ++ nl)
          = some (nl ++ md ++ nl, nl) := splitFirst_append hE hb
      have hmatch : hasMatch startMarker endMarker
          (startMarker ++ nl ++ md ++ nl ++ endMarker ++ nl) = true := by
        unfold hasMatch
        rw [h1]
        change (splitFirst endMarker (nl ++ md ++ nl ++ endMarker ++ nl)).isSome = true
        rw [h2]
        rfl
      have hnlnone : splitFirst startMarker nl = none :=
        splitFirst_none_iff.mpr (not_infix_of_length_lt (by decide))
      have hfix : subAll startMarker endMarker (startMarker ++ nl ++ md ++ nl ++ endMarker)
          (startMarker ++ nl ++ md ++ nl ++ endMarker ++ nl)
          = startMarker ++ nl ++ md ++ nl ++ endMarker ++ nl := by
        rw [subAll_step hS h1 h2, subAll_of_none hnlnone]
        simp [List.append_assoc]
      exact replace_section_fixed hmatch hT hfix
    | some content =>
      by_cases hm : hasMatch startMarker endMarker content = true
      · -- an existing marker pair: the first run substitutes
        have hb' : ¬ endMarker <:+: ((nl ++ md ++ nl) ++ endMarker).dropLast := hb
        have hfix : subAll startMarker endMarker
            (startMarker ++ (nl ++ md ++ nl) ++ endMarker)
            (subAll startMarker endMarker (startMarker ++ (nl ++ md ++ nl) ++ endMarker) content)
            = subAll startMarker endMarker (startMarker ++ (nl ++ md ++ nl) ++ endMarker) content :=
          subAll_idem hS hE hb' content.length content le_rfl
        have hmatch2 : hasMatch startMarker endMarker
            (subAll startMarker endMarker (startMarker ++ (nl ++ md ++ nl) ++ endMarker) content)
            = true := hasMatch_subAll hS hE hb' hm
        rw [← template_shape] at hfix hmatch2
        have hsecond := replace_section_fixed hmatch2 hT hfix
        by_cases heq : subAll startMarker endMarker (startMarker ++ nl ++ md ++ nl ++ endMarker) content = content
        · refine ⟨subAll startMarker endMarker (startMarker ++ nl ++ md ++ nl ++ endMarker) content,
            false, ?_, hsecond⟩
          rw [replace_section_some_match hm hT, if_pos heq, heq]
        · refine ⟨subAll startMarker endMarker (startMarker ++ nl ++ md ++ nl ++ endMarker) content,
            true, ?_, hsecond⟩
          rw [replace_section_some_match hm hT, if_neg heq]
      · -- no marker pair in the existing content: the block is appended
        have hmF : hasMatch startMarker endMarker content = false := by
          cases hval : hasMatch startMarker endMarker content
          · rfl
          · exact absurd hval hm
        have hcS := hc content rfl hmF
        refine ⟨content ++ nl ++ nl ++ (startMarker ++ nl ++ md ++ nl ++ endMarker), true,
          replace_section_some_nomatch hmF, ?_⟩
        have h1 : splitFirst startMarker
            (content ++ nl ++ nl ++ (startMarker ++ nl ++ md ++ nl ++ endMarker))
            = some (content ++ nl ++ nl, nl ++ md ++ nl ++ endMarker) := by
          have hshape : content ++ nl ++ nl ++ (startMarker ++ nl ++ md ++ nl ++ endMarker)
              = (content ++ nl ++ nl) ++ startMarker ++ (nl ++ md ++ nl ++ endMarker) := by
            simp [List.append_assoc]
          rw [hshape]
          exact splitFirst_append hS hcS
        have h2 : splitFirst endMarker (nl ++ md ++ nl ++ endMarker)
            = some (nl ++ md ++ nl, []) := by
          have := splitFirst_append (u := []) hE hb
          rwa [List.append_nil] at this
        have hmatch2 : hasMatch startMarker endMarker
            (content ++ nl ++ nl ++ (startMarker ++ nl ++ md ++ nl ++ endMarker)) = true := by
          unfold hasMatch
          rw [h1]
          change (splitFirst endMarker (nl ++ md ++ nl ++ endMarker)).isSome = true
          rw [h2]
          rfl
        have hfix : subAll startMarker endMarker (startMarker ++ nl ++ md ++ nl ++ endMarker)
            (content ++ nl ++ nl ++ (startMarker ++ nl ++ md ++ nl ++ endMarker))
            = content ++ nl ++ nl ++ (startMarker ++ nl ++ md ++ nl ++ endMarker) := by
          rw [subAll_step hS h1 h2, subAll_of_none (splitFirst_nil hS)]
          simp [List.append_assoc]
        exact replace_section_fixed hmatch2 hT hfix
  · -- a write happens exactly when the content changed
    intro content st2 ch h
    by_cases hm : hasMatch startMarker endMarker content = true
    · rw [replace_section_some_match hm hT] at h
      by_cases heq : subAll startMarker endMarker (startMarker ++ nl ++ md ++ nl ++ endMarker) content = content
      · rw [if_pos heq] at h
        simp only [Option.some.injEq, Prod.mk.injEq] at h
        obtain ⟨h1, h2⟩ := h
        subst h1
        simp [← h2]
      · rw [if_neg heq] at h
        simp only [Option.some.injEq, Prod.mk.injEq] at h
        obtain ⟨h1, h2⟩ := h
        subst h1
        constructor
        · intro hfalse; rw [hfalse] at h2; cases h2
        · intro hsome
          exact absurd (Option.some.inj hsome) heq
    · have hmF : hasMatch startMarker endMarker content = false := by
        cases hval : hasMatch startMarker endMarker content
        · rfl
        · exact absurd hval hm
      rw [replace_section_some_nomatch hmF] at h
      simp only [Option.some.injEq, Prod.mk.injEq] at h
      obtain ⟨h1, h2⟩ := h
      subst h1
      have hne := append_block_ne content md
      constructor
      · intro hfalse; rw [hfalse] at h2; cases h2
      · intro hsome
        exact absurd (Option.some.inj hsome) hne

/-- Concrete run showing claim C2 false as frozen: on a destination that
holds a dangling start marker, the first call appends the marker block
and the second call with identical inputs writes again (it returns true,
not false), because the dangling marker and the appended end marker now
form a match whose substitution collapses the text between them. -/
theorem c2_counterexample :
    replace_section (some startMarker) ['x'] = some (some c2cex_mid, true) ∧
    replace_section (some c2cex_mid) ['x'] = some (some c2cex_after, true) ∧
    c2cex_after ≠ c2cex_mid := by
  refine ⟨by decide, by decide, by decide⟩

/-- Witness for C1 at a concrete single-pair destination. -/
theorem c1_witness :
    c1wit_content = "A\n".data ++ startMarker ++ "\nold\n".data ++ endMarker ++ "\nZ".data ∧
    ∃ changed, replace_section (some c1wit_content) "new".data
      = some (some ("A\n".data ++ startMarker ++ nl ++ "new".data ++ nl ++ endMarker ++ "\nZ".data),
          changed) :=
  c1_frame_thm c1wit_content "new".data "A\n".data
    ("\nold\n".data ++ endMarker ++ "\nZ".data) "\nold\n".data "\nZ".data
    (by decide) (by decide) (by decide) (by decide)

/-- Witness for C2 at a concrete destination without markers and a
concrete rendered body. -/
theorem c2_witness :
    (∃ c1 b1, replace_section (some "hello".data) "- [a](b)".data = some (some c1, b1) ∧
        replace_section (some c1) "- [a](b)".data = some (some c1, false)) ∧
    (∀ content st2 ch, replace_section (some content) "- [a](b)".data = some (st2, ch) →
        (ch = false ↔ st2 = some content)) :=
  c2_idempotence_thm (some "hello".data) "- [a](b)".data (by decide) (by decide)
    (by intro c hceq hm; injection hceq with hceq2; subst hceq2; decide)

/-- Claim C3 (amended): infer_date follows the three-tier fallback with
each tier short-circuiting on success, where the first tier succeeds
exactly when the FIRST substring of the base name matching the DATE_RE
pattern parses as a calendar date (a leftmost match that fails to parse
sends control to the next tier even if a later substring would parse):
if extract_date_from_filename yields a date it is returned, beating any
frontmatter date; otherwise a parseable frontmatter date is returned;
otherwise the modification time. -/
theorem c3_fallback_thm (f : MdFile) :
    (∀ d, extract_date_from_filename f.name = some d → infer_date f = d) ∧
    (extract_date_from_filename f.name = none →
      ∀ d, extract_frontmatter_date f = some d → infer_date f = d) ∧
    (extract_date_from_filename f.name = none → extract_frontmatter_date f = none →
      infer_date f = file_mtime f) := by
  unfold infer_date
  refine ⟨?_, ?_, ?_⟩
  · intro d h; rw [h]
  · intro h1 d h2; rw [h1, h2]
  · intro h1 h2; rw [h1, h2]

/-- Concrete input showing claim C3 false as frozen: the base name
contains the substring 2024-03-01, which matches YYYY-MM-DD and parses as
a calendar date, yet infer_date does not return it — the leftmost match
0000-12-31 fails to parse (year 0 is below MINYEAR), so the code falls
through to the mtime tier. -/
theorem c3_counterexample :
    c3cex_file.name = "0000-12-31 ".data ++ "2024-03-01".data ++ ".md".data ∧
    matchDateAt "2024-03-01".data = some (2024, 3, 1) ∧
    validYMD 2024 3 1 = true ∧
    infer_date c3cex_file = c3cex_file.mtime ∧
    infer_date c3cex_file ≠ ⟨2024, 3, 1, 0⟩ := by
  refine ⟨by decide, by decide, by decide, by decide, by decide⟩

/-- Witness for C3 at the three concrete files of the spec's example. -/
theorem c3_witness :
    infer_date c3wit_fileA = ⟨2024, 3, 1, 0⟩ ∧
    infer_date c3wit_fileB = ⟨2021, 6, 15, 0⟩ ∧
    infer_date c3wit_fileC = file_mtime c3wit_fileC :=
  ⟨(c3_fallback_thm c3wit_fileA).1 ⟨2024, 3, 1, 0⟩ (by decide),
   (c3_fallback_thm c3wit_fileB).2.1 (by decide) ⟨2021, 6, 15, 0⟩ (by decide),
   (c3_fallback_thm c3wit_fileC).2.2 (by decide) (by decide)⟩

/-- Claim C4 (amended): with zero discovered markdown files, main prints
the no-files message and exits successfully WITHOUT invoking
replace_section — the destination state is left exactly as it was (it is
not rewritten to contain an empty list between markers).  The true half
of the frozen claim also holds: build_list on an empty candidate list
renders the empty string. -/
theorem c4_empty_thm :
    (∀ (ds : Option (List Char)) (c : Int) (dn : List Char) (m : LabelMode),
      main_run [] ds c dn m = some (ds, ExitMsg.noFiles)) ∧
    (∀ (c : Int) (dn : List Char) (m : LabelMode), build_list [] c dn m = []) := by
  constructor
  · intro ds c dn m; rfl
  · intro c dn m
    show List.intercalate ['\n'] ((pySlice c (sortByDateDesc (build_items [] dn []))).map (renderItem m)) = []
    have h1 : build_items [] dn [] = [] := rfl
    rw [h1]
    show List.intercalate ['\n'] ((pySlice c []).map (renderItem m)) = []
    have h2 : pySlice c ([] : List NoteItem) = [] := by
      unfold pySlice
      split <;> simp
    rw [h2]
    rfl

/-- Concrete run showing claim C4 false as frozen: with zero discovered
files and an existing destination, the run leaves the destination
untouched and reports the no-files message; in particular the result does
not contain the marker block at all, contradicting the claim that
ReplaceSection is still invoked and produces an empty list between
markers. -/
theorem c4_counterexample :
    main_run [] (some "hello".data) 3 "README.md".data LabelMode.filename
      = some (some "hello".data, ExitMsg.noFiles) ∧
    ¬ startMarker <:+: "hello".data := by
  exact ⟨rfl, by decide⟩

/-- Claim C7: infer_date is total — in the embedding every exception of a
tier is already an Option none — and any failure (frontmatter loading
failure, missing date key, both date parses failing, no parseable
filename date) falls through to the next tier, ending at the
modification time. -/
theorem c7_total_thm (f : MdFile) :
    ((f.fmLoadOk = false ∨ f.fmHasDate = false ∨ (f.fmDateISO = none ∧ f.fmDateYMD = none)) →
      extract_frontmatter_date f = none) ∧
    (extract_date_from_filename f.name = none → extract_frontmatter_date f = none →
      infer_date f = file_mtime f) ∧
    ((∃ d, extract_date_from_filename f.name = some d ∧ infer_date f = d) ∨
      (extract_date_from_filename f.name = none ∧
        ((∃ d, extract_frontmatter_date f = some d ∧ infer_date f = d) ∨
          (extract_frontmatter_date f = none ∧ infer_date f = file_mtime f)))) := by
  refine ⟨?_, ?_, ?_⟩
  · intro h
    unfold extract_frontmatter_date
    rcases h with h | h | h
    · simp [h]
    · simp [h]
    · rcases hload : f.fmLoadOk with _ | _
      · simp
      · rcases hdate : f.fmHasDate with _ | _
        · simp
        · simp [h.1, h.2]
  · intro h1 h2
    unfold infer_date
    rw [h1, h2]
  · unfold infer_date
    cases h1 : extract_date_from_filename f.name with
    | some d => exact Or.inl ⟨d, rfl, rfl⟩
    | none =>
      refine Or.inr ⟨rfl, ?_⟩
      cases h2 : extract_frontmatter_date f with
      | some d => exact Or.inl ⟨d, rfl, rfl⟩
      | none => exact Or.inr ⟨rfl, rfl⟩

/-- Witness for C7 at a file whose frontmatter loading raises. -/
theorem c7_witness :
    extract_frontmatter_date c7wit_file = none ∧
    infer_date c7wit_file = file_mtime c7wit_file :=
  ⟨(c7_total_thm c7wit_file).1 (Or.inl (by decide)),
   (c7_total_thm c7wit_file).2.1 (by decide) ((c7_total_thm c7wit_file).1 (Or.inl (by decide)))⟩

theorem url_encode_path_append (a b : List Char) :
    url_encode_path (a ++ b) = url_encode_path a ++ url_encode_path b := by
  unfold url_encode_path
  exact List.flatMap_append a b quoteChar

/-- Claim C8: the rendered link URL applies percent-encoding per
character with the path separator exempted: the encoding distributes over
the characters, every slash stays a literal slash, and a space becomes
the escape %20. -/
theorem c8_encoding_thm (a b p : List Char) :
    url_encode_path p = p.flatMap quoteChar ∧
    quoteChar '/' = ['/'] ∧
    quoteChar ' ' = ['%', '2', '0'] ∧
    url_encode_path (a ++ '/' :: b) = url_encode_path a ++ '/' :: url_encode_path b ∧
    url_encode_path (a ++ ' ' :: b)
      = url_encode_path a ++ '%' :: '2' :: '0' :: url_encode_path b := by
  refine ⟨rfl, by decide, by decide, ?_, ?_⟩
  · have h := url_encode_path_append a ('/' :: b)
    rw [h]
    have hcons : url_encode_path ('/' :: b) = quoteChar '/' ++ url_encode_path b := rfl
    rw [hcons, show quoteChar '/' = ['/'] from by decide]
    rfl
  · have h := url_encode_path_append a (' ' :: b)
    rw [h]
    have hcons : url_encode_path (' ' :: b) = quoteChar ' ' ++ url_encode_path b := rfl
    rw [hcons, show quoteChar ' ' = ['%', '2', '0'] from by decide]
    rfl

theorem escape_md_text_append (a b : List Char) :
    escape_md_text (a ++ b) = escape_md_text a ++ escape_md_text b := by
  unfold escape_md_text replaceChar
  simp [List.flatMap_append]

/-- Claim C9: escape_md_text doubles backslashes first and then escapes
the square brackets, so the escapes do not interfere: each single special
character maps to its backslash form, the escaping distributes over
concatenation, and in particular a label containing the substring [note]
renders with it escaped as backslash-bracket note backslash-bracket. -/
theorem c9_escape_thm (a b : List Char) :
    escape_md_text ['\\'] = ['\\', '\\'] ∧
    escape_md_text ['['] = ['\\', '['] ∧
    escape_md_text [']'] = ['\\', ']'] ∧
    escape_md_text (a ++ b) = escape_md_text a ++ escape_md_text b ∧
    escape_md_text (a ++ "[note]".data ++ b)
      = escape_md_text a ++ "\\[note\\]".data ++ escape_md_text b := by
  refine ⟨by decide, by decide, by decide, escape_md_text_append a b, ?_⟩
  rw [escape_md_text_append, escape_md_text_append]
  have h : escape_md_text "[note]".data = "\\[note\\]".data := by decide
  rw [h]

/-! ### Facts about the stable descending sort -/

theorem DT.Lt_irrefl (a : DT) : ¬ DT.Lt a a := by
  unfold DT.Lt; omega

theorem DT.Lt_asymm {a b : DT} (h : DT.Lt a b) : ¬ DT.Lt b a := by
  unfold DT.Lt at h ⊢; omega

theorem DT.not_Lt_trans {a b c : DT} (h1 : ¬ DT.Lt a b) (h2 : ¬ DT.Lt b c) :
    ¬ DT.Lt a c := by
  unfold DT.Lt at h1 h2 ⊢; omega

theorem insertByDate_perm (x : NoteItem) (l : List NoteItem) :
    (insertByDate x l).Perm (x :: l) := by
  induction l with
  | nil => exact List.Perm.refl _
  | cons y ys ih =>
    unfold insertByDate
    split
    · exact (List.Perm.cons y ih).trans (List.Perm.swap x y ys)
    · exact List.Perm.refl _

theorem sortByDateDesc_perm (l : List NoteItem) : (sortByDateDesc l).Perm l := by
  induction l with
  | nil => exact List.Perm.refl _
  | cons x xs ih =>
    unfold sortByDateDesc
    exact (insertByDate_perm x (sortByDateDesc xs)).trans (List.Perm.cons x ih)

theorem mem_insertByDate {a x : NoteItem} {l : List NoteItem} :
    a ∈ insertByDate x l ↔ a = x ∨ a ∈ l := by
  rw [(insertByDate_perm x l).mem_iff]
  simp

theorem insertByDate_pairwise {x : NoteItem} {l : List NoteItem}
    (h : l.Pairwise (fun a b => ¬ DT.Lt a.date b.date)) :
    (insertByDate x l).Pairwise (fun a b => ¬ DT.Lt a.date b.date) := by
  induction l with
  | nil => simp [insertByDate]
  | cons y ys ih =>
    rw [List.pairwise_cons] at h
    unfold insertByDate
    split
    · rename_i hlt
      rw [List.pairwise_cons]
      refine ⟨?_, ih h.2⟩
      intro z hz
      rcases mem_insertByDate.mp hz with hz1 | hz2
      · rw [hz1]; exact DT.Lt_asymm hlt
      · exact h.1 z hz2
    · rename_i hnlt
      rw [List.pairwise_cons]
      refine ⟨?_, List.pairwise_cons.mpr h⟩
      intro z hz
      rcases List.mem_cons.mp hz with hz1 | hz2
      · rw [hz1]; exact hnlt
      · exact DT.not_Lt_trans hnlt (h.1 z hz2)

theorem sortByDateDesc_pairwise (l : List NoteItem) :
    (sortByDateDesc l).Pairwise (fun a b => ¬ DT.Lt a.date b.date) := by
  induction l with
  | nil => simp [sortByDateDesc]
  | cons x xs ih =>
    unfold sortByDateDesc
    exact insertByDate_pairwise ih

theorem insertByDate_filter (k : DT) (x : NoteItem) (l : List NoteItem) :
    (insertByDate x l).filter (fun it => decide (it.date = k))
      = (x :: l).filter (fun it => decide (it.date = k)) := by
  induction l with
  | nil => rfl
  | cons y ys ih =>
    unfold insertByDate
    split
    · rename_i hlt
      by_cases hx : x.date = k
      · by_cases hy : y.date = k
        · exact absurd hlt (by rw [hx, hy]; exact DT.Lt_irrefl k)
        · simp [List.filter_cons, ih, hx, hy]
      · by_cases hy : y.date = k
        · simp [List.filter_cons, ih, hx, hy]
        · simp [List.filter_cons, ih, hx, hy]
    · rfl

theorem sortByDateDesc_filter (k : DT) (l : List NoteItem) :
    (sortByDateDesc l).filter (fun it => decide (it.date = k))
      = l.filter (fun it => decide (it.date = k)) := by
  induction l with
  | nil => rfl
  | cons x xs ih =>
    unfold sortByDateDesc
    rw [insertByDate_filter]
    simp only [List.filter_cons]
    rw [ih]

theorem pySlice_sublist (c : Int) (l : List NoteItem) : (pySlice c l).Sublist l := by
  unfold pySlice
  split
  · exact List.take_sublist _ _
  · exact List.take_sublist _ _

theorem pySlice_nonneg {c : Int} (h : 0 ≤ c) (l : List NoteItem) :
    pySlice c l = l.take c.toNat := by
  unfold pySlice
  rw [if_pos h]

theorem build_items_excl {dn : List Char} :
    ∀ (files : List MdFile) (seen : List (List Char)) (it : NoteItem),
      it ∈ build_items files dn seen → lowerStr (baseName it.rel) ≠ lowerStr dn := by
  intro files
  induction files with
  | nil => intro seen it h; simp [build_items] at h
  | cons f fs ih =>
    intro seen it h
    unfold build_items at h
    split at h
    · exact ih seen it h
    · rename_i hcond
      split at h
      · exact ih seen it h
      · rcases List.mem_cons.mp h with h1 | h2
        · subst h1
          intro hbad
          exact hcond (by simp [hbad])
        · exact ih _ it h2

/-- Claim C6: a candidate whose base name equals the destination file
name up to ASCII case is never recorded in the built index, and hence
never reaches the rendered (sorted, truncated) list, whatever the label
mode and count. -/
theorem c6_exclusion_thm (files : List MdFile) (dn : List Char) (count : Int) :
    (∀ it ∈ build_items files dn [], lowerStr (baseName it.rel) ≠ lowerStr dn) ∧
    (∀ it ∈ pySlice count (sortByDateDesc (build_items files dn [])),
      lowerStr (baseName it.rel) ≠ lowerStr dn) := by
  constructor
  · intro it hmem
    exact build_items_excl files [] it hmem
  · intro it hmem
    have h1 : it ∈ sortByDateDesc (build_items files dn []) :=
      List.Sublist.mem hmem (pySlice_sublist count _)
    have h2 : it ∈ build_items files dn [] :=
      (sortByDateDesc_perm _).mem_iff.mp h1
    exact build_items_excl files [] it h2

/-- Witness for C6: the surviving note of a two-file tree containing a
nested README.md is not the destination, and the README itself is
excluded (its record is not a member of the built index). -/
theorem c6_witness :
    lowerStr (baseName c6wit_item.rel) ≠ lowerStr "README.md".data :=
  (c6_exclusion_thm [c6wit_note, c6wit_readme] "README.md".data 3).1 c6wit_item (by decide)

/-- Claim C5: for a nonnegative count no larger than the number of
records surviving the filter, the rendered list is exactly the first
count records of the stable descending sort: it has exactly count
entries, the sort is a permutation of the records, it is ordered by
inferred date descending, records with equal dates keep their original
discovery order, and every rendered record has a date at least as large
as every record left out. -/
theorem c5_truncation_thm (files : List MdFile) (count : Int) (dn : List Char)
    (mode : LabelMode) (h0 : 0 ≤ count)
    (hn : count.toNat ≤ (build_items files dn []).length) :
    build_list files count dn mode
      = List.intercalate ['\n']
          (((sortByDateDesc (build_items files dn [])).take count.toNat).map (renderItem mode)) ∧
    ((sortByDateDesc (build_items files dn [])).take count.toNat).length = count.toNat ∧
    (sortByDateDesc (build_items files dn [])).Perm (build_items files dn []) ∧
    (sortByDateDesc (build_items files dn [])).Pairwise (fun a b => ¬ DT.Lt a.date b.date) ∧
    (∀ k, (sortByDateDesc (build_items files dn [])).filter (fun it => decide (it.date = k))
        = (build_items files dn []).filter (fun it => decide (it.date = k))) ∧
    (∀ a ∈ (sortByDateDesc (build_items files dn [])).take count.toNat,
      ∀ b ∈ (sortByDateDesc (build_items files dn [])).drop count.toNat,
        ¬ DT.Lt a.date b.date) := by
  refine ⟨?_, ?_, sortByDateDesc_perm _, sortByDateDesc_pairwise _,
    fun k => sortByDateDesc_filter k _, ?_⟩
  · unfold build_list
    rw [pySlice_nonneg h0]
  · rw [List.length_take, (sortByDateDesc_perm (build_items files dn [])).length_eq]
    exact min_eq_left hn
  · intro a ha b hb
    have hp := sortByDateDesc_pairwise (build_items files dn [])
    rw [← List.take_append_drop count.toNat (sortByDateDesc (build_items files dn [])),
      List.pairwise_append] at hp
    exact hp.2.2 a ha b hb

/-- Witness for C5 on four concrete candidates with a date tie and
count 2. -/
theorem c5_witness :
    ((sortByDateDesc (build_items c5wit_files "README.md".data [])).take (2 : Int).toNat).length
      = (2 : Int).toNat :=
  (c5_truncation_thm c5wit_files 2 "README.md".data LabelMode.title (by decide) (by decide)).2.1

/-- Claim C10 (amended): for a nonnegative count, build_list renders
exactly min(count, n) list items joined by newlines, where n counts the
records remaining after exclusion of the destination file AND of paths
under .github/, and deduplication by relative path with the first
occurrence winning — the code's n, which is smaller than the claim's
whenever a candidate lives under .github/. -/
theorem c10_count_thm (files : List MdFile) (count : Int) (dn : List Char)
    (mode : LabelMode) (h0 : 0 ≤ count) :
    build_list files count dn mode
      = List.intercalate ['\n']
          ((pySlice count (sortByDateDesc (build_items files dn []))).map (renderItem mode)) ∧
    ((pySlice count (sortByDateDesc (build_items files dn []))).map (renderItem mode)).length
      = min count.toNat (build_items files dn []).length := by
  refine ⟨rfl, ?_⟩
  rw [List.length_map, pySlice_nonneg h0, List.length_take,
    (sortByDateDesc_perm (build_items files dn [])).length_eq]

/-- Concrete input showing claim C10 false as frozen: a single candidate
under .github/ survives the claim's notion of n (it is not the
destination and not a duplicate, so n = 1 and min(count, n) = 1), yet
build_list renders the empty string — zero list items. -/
theorem c10_counterexample :
    build_list [c10cex_file] 1 "README.md".data LabelMode.filename = [] ∧
    (claimRemaining [c10cex_file] "README.md".data).length = 1 ∧
    min (1 : Int).toNat (claimRemaining [c10cex_file] "README.md".data).length = 1 := by
  refine ⟨by decide, by decide, by decide⟩

/-- Witness for C10 on the four concrete candidates with count 2. -/
theorem c10_witness :
    ((pySlice 2 (sortByDateDesc (build_items c5wit_files "README.md".data []))).map
      (renderItem LabelMode.filename)).length
      = min (2 : Int).toNat (build_items c5wit_files "README.md".data []).length :=
  (c10_count_thm c5wit_files 2 "README.md".data LabelMode.filename (by decide)).2
